import Mathlib

/-!
Verification development for the BusiestBox companion scripts
(`not_updog.py`, `encrypt.py`, `decrypt.py`).

The Python sources are shallowly embedded: Python `bytes` values are
`List Nat` (each element a byte value), Python `str` values are `List Char`,
fallible operations return `Option`/`Except`, and the line-oriented socket
reads of the HTTP handlers are explicit lists of read events.  All
definitions are executable.
-/

/-! ## Generic string/byte helpers (semantics of the Python builtins used) -/

/-- Python `s.startswith(pre)` on lists. -/
def startsWithL {α : Type} [DecidableEq α] : List α → List α → Bool
  | [], _ => true
  | _ :: _, [] => false
  | a :: as, b :: bs => decide (a = b) && startsWithL as bs

/-- Python `needle in hay` (substring containment) on lists. -/
def containsSub {α : Type} [DecidableEq α] (needle : List α) : List α → Bool
  | [] => decide (needle = [])
  | hay@(_ :: rest) => startsWithL needle hay || containsSub needle rest

/-- Python `s.endswith(suf)` on lists. -/
def endsWithL {α : Type} [DecidableEq α] (suf s : List α) : Bool :=
  startsWithL suf.reverse s.reverse

/-- Python `str.encode()` for the ASCII strings appearing in the scripts. -/
def charsToBytes (s : List Char) : List Nat := s.map Char.toNat

/-- Python `bytes.decode(errors='replace')` for the ASCII data appearing in
the scripts (byte-wise character decoding). -/
def bytesToChars (bs : List Nat) : List Char := bs.map Char.ofNat

/-- Bytes of a Lean string literal (used to write down concrete inputs). -/
def strBytes (s : String) : List Nat := charsToBytes s.toList

/-! ## Keystream engine: `xor_mask` (not_updog.py lines 15-16)

```python
def xor_mask(data: bytes, key: bytes, offset: int = 0) -> bytes:
    return bytes(b ^ key[(i + offset) % len(key)] for i, b in enumerate(data))
```

`key[(i + offset) % len(key)]` is embedded as `key.getD ((i + offset) % key.length) 0`;
for a non-empty `key` the index is always in bounds, so the default is never
used (Python raises on an empty key, which the claims exclude). -/

def xor_mask (data key : List Nat) (offset : Nat := 0) : List Nat :=
  data.enum.map (fun ib => ib.2 ^^^ key.getD ((ib.1 + offset) % key.length) 0)

/-- Recursive presentation of `xor_mask`, used for the proofs. -/
def xorMaskGo (key : List Nat) : List Nat → Nat → List Nat
  | [], _ => []
  | b :: bs, off => (b ^^^ key.getD (off % key.length) 0) :: xorMaskGo key bs (off + 1)

theorem enumFrom_map_xor (key : List Nat) (data : List Nat) :
    ∀ (n off : Nat),
      (List.enumFrom n data).map
          (fun ib => ib.2 ^^^ key.getD ((ib.1 + off) % key.length) 0) =
        xorMaskGo key data (n + off) := by
  induction data with
  | nil => intro n off; rfl
  | cons b bs ih =>
      intro n off
      simp only [List.enumFrom, List.map, xorMaskGo]
      congr 1
      rw [ih (n + 1) off]
      congr 1
      omega

theorem xor_mask_eq_go (data key : List Nat) (offset : Nat) :
    xor_mask data key offset = xorMaskGo key data offset := by
  have h := enumFrom_map_xor key data 0 offset
  simpa [xor_mask, List.enum] using h

theorem xorMaskGo_xorMaskGo (key : List Nat) (data : List Nat) :
    ∀ off, xorMaskGo key (xorMaskGo key data off) off = data := by
  induction data with
  | nil => intro off; rfl
  | cons b bs ih =>
      intro off
      simp only [xorMaskGo, ih (off + 1)]
      congr 1
      rw [Nat.xor_assoc, Nat.xor_self, Nat.xor_zero]

theorem xorMaskGo_length (key : List Nat) (data : List Nat) :
    ∀ off, (xorMaskGo key data off).length = data.length := by
  induction data with
  | nil => intro off; rfl
  | cons b bs ih => intro off; simp [xorMaskGo, ih (off + 1)]

theorem xorMaskGo_append (key : List Nat) (a : List Nat) :
    ∀ (b : List Nat) (off : Nat),
      xorMaskGo key (a ++ b) off = xorMaskGo key a off ++ xorMaskGo key b (off + a.length) := by
  induction a with
  | nil => intro b off; simp [xorMaskGo]
  | cons x xs ih =>
      intro b off
      simp only [List.cons_append, xorMaskGo, List.length_cons, List.append_eq]
      congr 1
      rw [ih b (off + 1)]
      congr 2
      omega

/-- **C1.** For every byte sequence `d`, non-empty key `k` and offset `o`,
`xor_mask (xor_mask d k o) k o = d`: the keystream transform is an involution
under a fixed key and fixed absolute offset. -/
theorem xor_mask_involution (d k : List Nat) (o : Nat) (hk : k ≠ []) :
    xor_mask (xor_mask d k o) k o = d := by
  rw [xor_mask_eq_go, xor_mask_eq_go]
  exact xorMaskGo_xorMaskGo k d o

theorem xor_mask_involution_witness :
    ([5, 9] : List Nat) ≠ [] ∧
      xor_mask (xor_mask [1, 2, 3, 250] [5, 9] 2) [5, 9] 2 = [1, 2, 3, 250] :=
  ⟨by decide, xor_mask_involution [1, 2, 3, 250] [5, 9] 2 (by decide)⟩

/-! ## C2: chunked transforms compose -/

/-- Transform a list of contiguous chunks, each with the cumulative starting
offset of that chunk, and concatenate the results (the discipline §3 of the
spec demands of any component that splits a byte stream). -/
def transformChunks (key : List Nat) : List (List Nat) → Nat → List Nat
  | [], _ => []
  | c :: cs, off => xor_mask c key off ++ transformChunks key cs (off + c.length)

theorem transformChunks_eq (key : List Nat) (chunks : List (List Nat)) :
    ∀ off, transformChunks key chunks off = xorMaskGo key chunks.flatten off := by
  induction chunks with
  | nil => intro off; rfl
  | cons c cs ih =>
      intro off
      simp only [transformChunks, List.flatten_cons, xor_mask_eq_go, ih,
        xorMaskGo_append]

/-- **C2.** Splitting a byte stream into contiguous chunks at arbitrary
boundaries, transforming each chunk with its cumulative starting offset and
concatenating equals transforming the whole stream at offset 0. -/
theorem transformChunks_eq_whole (d k : List Nat) (chunks : List (List Nat))
    (hk : k ≠ []) (hd : chunks.flatten = d) :
    transformChunks k chunks 0 = xor_mask d k 0 := by
  rw [transformChunks_eq, hd, xor_mask_eq_go]

theorem transformChunks_eq_whole_witness :
    ([7] : List Nat) ≠ [] ∧
      ([[1, 2], [], [3, 4, 5], [6]] : List (List Nat)).flatten = [1, 2, 3, 4, 5, 6] ∧
      transformChunks [7] [[1, 2], [], [3, 4, 5], [6]] 0 = xor_mask [1, 2, 3, 4, 5, 6] [7] 0 :=
  ⟨by decide, by decide,
    transformChunks_eq_whole [1, 2, 3, 4, 5, 6] [7] [[1, 2], [], [3, 4, 5], [6]]
      (by decide) (by decide)⟩

/-! ## Path sandbox (not_updog.py `do_GET`, lines 146-181)

The handler works on Python `str` paths with `os.path` (POSIX) semantics,
embedded here on `List Char`. -/

/-- Python `s.split(sep)` for a single-character separator. -/
def splitOnChar (sep : Char) : List Char → List (List Char)
  | [] => [[]]
  | c :: rest =>
      if c = sep then [] :: splitOnChar sep rest
      else
        match splitOnChar sep rest with
        | [] => [[c]]
        | h :: t => (c :: h) :: t

/-- Component loop of `posixpath.normpath`: `acc` is the list of kept
components in reverse order, `abs` says whether the path had initial
slashes. -/
def normComps (abs : Bool) : List (List Char) → List (List Char) → List (List Char)
  | acc, [] => acc.reverse
  | acc, comp :: rest =>
      if comp = [] ∨ comp = ['.'] then normComps abs acc rest
      else if comp ≠ ['.', '.'] ∨ (abs = false ∧ acc = []) ∨
          (acc ≠ [] ∧ acc.head? = some ['.', '.']) then
        normComps abs (comp :: acc) rest
      else
        match acc with
        | [] => normComps abs [] rest
        | _ :: acc' => normComps abs acc' rest

/-- `posixpath.normpath` (resolve `.`/`..`, collapse separators; a leading
`..` of a relative path is preserved, one of an absolute path is dropped). -/
def normpath (p : List Char) : List Char :=
  if p = [] then ['.']
  else
    let slashes : Nat :=
      if startsWithL ['/', '/'] p ∧ ¬ startsWithL ['/', '/', '/'] p then 2
      else if startsWithL ['/'] p then 1 else 0
    let comps := normComps (decide (slashes ≠ 0)) [] (splitOnChar '/' p)
    let res := List.replicate slashes '/' ++ List.intercalate ['/'] comps
    if res = [] then ['.'] else res

/-- `posixpath.join` for the two-argument calls in the source. -/
def joinPath (a b : List Char) : List Char :=
  if startsWithL ['/'] b then b
  else if a = [] ∨ endsWithL ['/'] a then a ++ b
  else a ++ '/' :: b

/-- `os.path.abspath` with the process working directory passed explicitly. -/
def abspath (cwd p : List Char) : List Char :=
  if startsWithL ['/'] p then normpath p else normpath (joinPath cwd p)

/-- Python `s.lstrip('/')`. -/
def lstripSlash (p : List Char) : List Char := p.dropWhile (· = '/')

/-- `os.path.basename` (everything after the last `/`). -/
def basename (p : List Char) : List Char := (splitOnChar '/' p).getLastD []

/-- The request path contains a `..` path segment. -/
def containsDotDot (p : List Char) : Bool := (splitOnChar '/' p).contains ['.', '.']

/-- Modelled from the spec's words (§4.2, §8): the resolved absolute path
lies outside the service root, i.e. it is neither the root itself nor below
it past a separator.  This is the comparison point for claim C4; the code's
own check is the bare string test `startsWithL cwd`. -/
def resolvedOutside (root q : List Char) : Bool :=
  !(decide (q = root) || startsWithL (root ++ ['/']) q)

/-- Filesystem oracle for the GET handler: the results of the `os.path`
queries and the file read that `do_GET` performs. -/
structure FS where
  isdir : List Char → Bool
  isfile : List Char → Bool
  read : List Char → List Nat

/-- Outcome of `do_GET`: which response branch runs (and, for a plain-mode
file download, the full response data). -/
inductive GetResult where
  | forbidden
  | forbiddenScript
  | listing (relPath : List Char)
  | file (status : Nat) (contentType contentDisp : List Char) (body : List Nat)
  | smuggled (path : List Char)
  | notFound
  deriving DecidableEq

/-- `SimpleFileServer.do_GET` (not_updog.py lines 146-181).  `reqPath` is the
URL-decoded request path (`urllib.parse.unquote(self.path)`); `cwd` is
`os.getcwd()`, `script` is `SCRIPT_ABSPATH`, `disableSmuggling` is
`self.server.disable_html_smuggling`.  The `open`/`read` of the plain branch
is modelled by the total oracle `fs.read` (its `except` branch is a 500 the
claims do not touch). -/
def do_GET (fs : FS) (cwd script : List Char) (disableSmuggling : Bool)
    (reqPath : List Char) : GetResult :=
  let safe_path := normpath (lstripSlash reqPath)
  let local_path := joinPath cwd safe_path
  if ¬ (startsWithL cwd (abspath cwd local_path) = true) then .forbidden
  else if abspath cwd local_path = script then .forbiddenScript
  else if fs.isdir local_path then .listing safe_path
  else if fs.isfile local_path then
    if disableSmuggling then
      .file 200 "application/octet-stream".toList
        ("attachment; filename=\"".toList ++ basename local_path ++ ['"'])
        (fs.read local_path)
    else .smuggled local_path
  else .notFound

/-- Oracle for an empty filesystem. -/
def fsEmpty : FS := ⟨fun _ => false, fun _ => false, fun _ => []⟩

/-- **C4 (amended).** Every request path whose normalized absolute form fails
the string test `startsWithL cwd` is rejected as `forbidden` (HTTP 403)
before any filesystem access: the result holds for every filesystem oracle
`fs`. -/
theorem do_GET_sandbox_rejects (fs : FS) (cwd script reqPath : List Char)
    (flag : Bool) (hdots : containsDotDot reqPath = true)
    (hout : startsWithL cwd
      (abspath cwd (joinPath cwd (normpath (lstripSlash reqPath)))) = false) :
    do_GET fs cwd script flag reqPath = GetResult.forbidden := by
  simp [do_GET, hout]

theorem do_GET_sandbox_rejects_witness :
    containsDotDot "/../../etc/passwd".toList = true ∧
      startsWithL "/a/b".toList
        (abspath "/a/b".toList (joinPath "/a/b".toList
          (normpath (lstripSlash "/../../etc/passwd".toList)))) = false ∧
      do_GET fsEmpty "/a/b".toList "/a/b/not_updog.py".toList true
        "/../../etc/passwd".toList = GetResult.forbidden :=
  ⟨by decide, by decide,
    do_GET_sandbox_rejects fsEmpty "/a/b".toList "/a/b/not_updog.py".toList
      "/../../etc/passwd".toList true (by decide) (by decide)⟩

/-- **C4 (counterexample).** A path with `..` segments that resolves outside
the service root (in the spec's sense) can still pass the bare string test:
from root `/a/b`, the request `/../bc/x` resolves to `/a/bc/x` — outside the
root — yet `do_GET` does not return `forbidden` (it proceeds to the
filesystem queries and ends at `notFound`). -/
theorem do_GET_sandbox_gap :
    containsDotDot "/../bc/x".toList = true ∧
      resolvedOutside "/a/b".toList
        (abspath "/a/b".toList (joinPath "/a/b".toList
          (normpath (lstripSlash "/../bc/x".toList)))) = true ∧
      do_GET fsEmpty "/a/b".toList "/a/b/not_updog.py".toList true
        "/../bc/x".toList ≠ GetResult.forbidden := by
  exact ⟨by decide, by decide, by decide⟩

/-- **C8.** Plain mode (`disableSmuggling = true`): a GET for a path that
passes the sandbox, is not the server script, and names a regular file
responds 200 with content type `application/octet-stream`, a
`Content-Disposition: attachment` header carrying the file's base name, and
the file's raw bytes as body. -/
theorem do_GET_plain_file (fs : FS) (cwd script reqPath : List Char)
    (hsand : startsWithL cwd
      (abspath cwd (joinPath cwd (normpath (lstripSlash reqPath)))) = true)
    (hscript : abspath cwd (joinPath cwd (normpath (lstripSlash reqPath))) ≠ script)
    (hdir : fs.isdir (joinPath cwd (normpath (lstripSlash reqPath))) = false)
    (hfile : fs.isfile (joinPath cwd (normpath (lstripSlash reqPath))) = true) :
    do_GET fs cwd script true reqPath =
      GetResult.file 200 "application/octet-stream".toList
        ("attachment; filename=\"".toList ++
          basename (joinPath cwd (normpath (lstripSlash reqPath))) ++ ['"'])
        (fs.read (joinPath cwd (normpath (lstripSlash reqPath)))) := by
  simp [do_GET, hsand, hscript, hdir, hfile]

/-- Oracle for a filesystem holding exactly `/a/notes.txt` with contents
`hello`. -/
def fsNotes : FS :=
  ⟨fun _ => false,
   fun q => decide (q = "/a/notes.txt".toList),
   fun q => if q = "/a/notes.txt".toList then strBytes "hello" else []⟩

theorem do_GET_plain_file_witness :
    do_GET fsNotes "/a".toList "/a/not_updog.py".toList true "/notes.txt".toList =
      GetResult.file 200 "application/octet-stream".toList
        ("attachment; filename=\"".toList ++ "notes.txt".toList ++ ['"'])
        (strBytes "hello") := by
  have h := do_GET_plain_file fsNotes "/a".toList "/a/not_updog.py".toList
    "/notes.txt".toList (by decide) (by decide) (by decide) (by decide)
  exact h.trans (by decide)

/-! ## Streaming ingest parser (not_updog.py `do_POST`, lines 183-270)

`self.rfile.readline()` calls are modelled by a list of read events: a
`line` event is the bytes one `readline()` returns (terminator included),
`err` is an I/O exception raised by the read; an exhausted list is end of
stream (`readline()` returns `b''`).  The filesystem side effects of the
handler (`open(..., 'wb')`, `out_file.write`, `os.rename`) are recorded as
an event trace; `os.remove`/`unlink` is part of the event vocabulary but the
handler never emits it. -/

def CHUNK_SIZE : Nat := 4 * 1024 * 1024

inductive ReadEv where
  | line (bs : List Nat)
  | err
  deriving DecidableEq

/-- One `self.rfile.readline()`: `none` models a raised I/O exception. -/
def readline : List ReadEv → Option (List Nat × List ReadEv)
  | [] => some ([], [])
  | .line bs :: rest => some (bs, rest)
  | .err :: _ => none

inductive FsEvent where
  | openW (path : List Char)
  | write (path : List Char) (data : List Nat)
  | rename (src dst : List Char)
  | unlink (path : List Char)
  deriving DecidableEq

/-- The MIME-header loop (lines 206-212): read lines into `headers` until a
blank line (`b"\r\n"`, `b"\n"` or `b""`) arrives. -/
def readHeaders (acc : List Nat) : List ReadEv → Option (List Nat × List ReadEv)
  | [] => some (acc, [])
  | .err :: _ => none
  | .line bs :: rest =>
      if bs = [13, 10] ∨ bs = [10] ∨ bs = [] then some (acc, rest)
      else readHeaders (acc ++ bs) rest

/-- Python whitespace for `str.strip()`. -/
def isPySpace (c : Char) : Bool :=
  c == ' ' || c == '\t' || c == '\n' || c == '\r' || c == Char.ofNat 11 || c == Char.ofNat 12

/-- Python `s.strip()`. -/
def stripChars (s : List Char) : List Char :=
  ((s.dropWhile isPySpace).reverse.dropWhile isPySpace).reverse

/-- Python `s.strip('"')`. -/
def stripQuotes (s : List Char) : List Char :=
  ((s.dropWhile (· = '"')).reverse.dropWhile (· = '"')).reverse

/-- Python `str.splitlines()` (for the `\r\n` / `\r` / `\n` terminators that
can occur in MIME headers). -/
def splitlinesGo : List Char → List Char → List (List Char)
  | [], cur => if cur = [] then [] else [cur.reverse]
  | [c], cur =>
      if c = '\r' ∨ c = '\n' then [cur.reverse] else [(c :: cur).reverse]
  | c :: d :: rest, cur =>
      if c = '\r' ∧ d = '\n' then cur.reverse :: splitlinesGo rest []
      else if c = '\r' ∨ c = '\n' then cur.reverse :: splitlinesGo (d :: rest) []
      else splitlinesGo (d :: rest) (c :: cur)

def splitlines (s : List Char) : List (List Char) := splitlinesGo s []

/-- Python `s.split(sep)` for a multi-character separator, by fuel-bounded
scan; every step consumes at least one character, so `s.length` fuel is
enough. -/
def splitSubGo (sep : List Char) : Nat → List Char → List Char → List (List Char)
  | _, [], cur => [cur.reverse]
  | 0, s, cur => [cur.reverse ++ s]
  | fuel + 1, s@(c :: rest), cur =>
      if startsWithL sep s then cur.reverse :: splitSubGo sep fuel (s.drop sep.length) []
      else splitSubGo sep fuel rest (c :: cur)

def splitOnSub (sep s : List Char) : List (List Char) :=
  if sep = [] then [s] else splitSubGo sep s.length s []

/-- Inner loop of the filename extraction (lines 217-221): first part of the
`Content-Disposition` header whose stripped form starts with `filename=`. -/
def filenameFromParts : List (List Char) → Option (List Char)
  | [] => none
  | p :: rest =>
      if startsWithL "filename=".toList (stripChars p) then
        some (stripQuotes ((splitOnChar '=' (stripChars p)).getD 1 []))
      else filenameFromParts rest

/-- Lines 214-221: scan the decoded header lines; every
`Content-Disposition` line that yields a filename overwrites the previous
value. -/
def extractFilename (headerLines : List (List Char)) : Option (List Char) :=
  headerLines.foldl
    (fun acc line =>
      if startsWithL "content-disposition:".toList (line.map Char.toLower) then
        match filenameFromParts (splitOnChar ';' line) with
        | some f => some f
        | none => acc
      else acc)
    none

/-- The inner `while len(buffer) >= CHUNK_SIZE` loop (lines 240-246): slice
one chunk, transform it unless smuggling is disabled, write it, advance the
offset.  The loop runs at most `buf.length / CHUNK_SIZE` times, so
`buf.length` fuel is enough (`CHUNK_SIZE ≥ 1`). -/
def drainFuel (tmp : List Char) (key : List Nat) (plain : Bool) :
    Nat → List FsEvent → List Nat → Nat → List FsEvent × List Nat × Nat
  | 0, evs, buf, off => (evs, buf, off)
  | fuel + 1, evs, buf, off =>
      if CHUNK_SIZE ≤ buf.length then
        let chunk := buf.take CHUNK_SIZE
        let c := if plain then chunk else xor_mask chunk key off
        drainFuel tmp key plain fuel (evs ++ [.write tmp c]) (buf.drop CHUNK_SIZE)
          (off + c.length)
      else (evs, buf, off)

def drainChunks (tmp : List Char) (key : List Nat) (plain : Bool)
    (evs : List FsEvent) (buf : List Nat) (off : Nat) :
    List FsEvent × List Nat × Nat :=
  drainFuel tmp key plain buf.length evs buf off

/-- The body read loop (lines 233-246): stop at a line starting with
`b'--' + boundary` or at end of stream, otherwise append the line to the
buffer and drain full chunks.  An `err` event aborts with the events
emitted so far (the surrounding `except` of `do_POST` turns it into a 500). -/
def bodyLoop (delim key : List Nat) (plain : Bool) (tmp : List Char) :
    List ReadEv → List FsEvent → List Nat → Nat →
      Except (List FsEvent) (List FsEvent × List Nat × Nat)
  | [], evs, buf, off => .ok (evs, buf, off)
  | .err :: _, evs, _, _ => .error evs
  | .line bs :: rest, evs, buf, off =>
      if startsWithL delim bs then .ok (evs, buf, off)
      else if bs = [] then .ok (evs, buf, off)
      else
        let r := drainChunks tmp key plain evs (buf ++ bs) off
        bodyLoop delim key plain tmp rest r.1 r.2.1 r.2.2

/-- Lines 248-252: remove one trailing `\r\n` (or bare `\n`) from the
residual buffer — it belongs to the MIME framing. -/
def trimTrailingNewline (buf : List Nat) : List Nat :=
  if endsWithL [13, 10] buf then buf.dropLast.dropLast
  else if endsWithL [10] buf then buf.dropLast
  else buf

/-- Lines 248-258: trim the framing terminator, then transform and flush the
residual buffer. -/
def finishBody (tmp : List Char) (key : List Nat) (plain : Bool)
    (evs : List FsEvent) (buf : List Nat) (off : Nat) : List FsEvent :=
  let b := trimTrailingNewline buf
  if b = [] then evs
  else evs ++ [.write tmp (if plain then b else xor_mask b key off)]

structure PostOut where
  status : Nat
  events : List FsEvent
  deriving DecidableEq

/-- `SimpleFileServer.do_POST` (lines 183-270).  `contentType` is the
`Content-Type` header value, `plain` is `disable_html_smuggling`, `key` is
`XOR_KEY`.  The unused `Content-Length` bookkeeping of the source has no
observable effect and is not modelled.  Status values: 400 client error,
500 exception caught by the `except` block, 303 success. -/
def do_POST (contentType : List Char) (rfile : List ReadEv) (key : List Nat)
    (plain : Bool) : PostOut :=
  if containsSub "multipart/form-data".toList contentType = false then ⟨400, []⟩
  else
    let boundary := charsToBytes ((splitOnSub "boundary=".toList contentType).getLastD [])
    let delimiter := strBytes "--" ++ boundary
    match readline rfile with
    | none => ⟨500, []⟩
    | some (line, r1) =>
      if startsWithL delimiter line = false then ⟨400, []⟩
      else
        match readHeaders [] r1 with
        | none => ⟨500, []⟩
        | some (headers, r2) =>
          match extractFilename (splitlines (bytesToChars headers)) with
          | none => ⟨400, []⟩
          | some f =>
            if f = [] then ⟨400, []⟩
            else
              let tmp := f ++ ".partial".toList
              match bodyLoop delimiter key plain tmp r2 [.openW tmp] [] 0 with
              | .error evs => ⟨500, evs⟩
              | .ok (evs, buf, off) =>
                ⟨303, finishBody tmp key plain evs buf off ++ [.rename tmp f]⟩

/-- Contents written to path `p` by an event trace, in order. -/
def writtenBytes (evs : List FsEvent) (p : List Char) : List Nat :=
  evs.foldl
    (fun acc e =>
      match e with
      | .write q d => if q = p then acc ++ d else acc
      | _ => acc) []

/-- Files present after an event trace runs against an initial directory
listing. -/
def applyFsEvent (fs : List (List Char)) : FsEvent → List (List Char)
  | .openW p => if p ∈ fs then fs else fs ++ [p]
  | .write _ _ => fs
  | .rename src dst => fs.erase src ++ [dst]
  | .unlink p => fs.erase p

def filesAfter (init : List (List Char)) (evs : List FsEvent) : List (List Char) :=
  evs.foldl applyFsEvent init

/-- **C6.** A POST whose `Content-Type` header does not contain
`multipart/form-data` is answered with HTTP 400 and no filesystem event at
all occurs, whatever the body stream holds. -/
theorem do_POST_wrong_content_type (ct : List Char) (rfile : List ReadEv)
    (key : List Nat) (plain : Bool)
    (h : containsSub "multipart/form-data".toList ct = false) :
    do_POST ct rfile key plain = ⟨400, []⟩ := by
  unfold do_POST
  rw [h]
  simp

theorem do_POST_wrong_content_type_witness :
    containsSub "multipart/form-data".toList "text/plain".toList = false ∧
      do_POST "text/plain".toList [ReadEv.line (strBytes "hi")] [7] true = ⟨400, []⟩ :=
  ⟨by decide,
    do_POST_wrong_content_type "text/plain".toList [ReadEv.line (strBytes "hi")] [7] true
      (by decide)⟩

/-- Content type used by the concrete upload scenarios: boundary token `X`. -/
def ctX : List Char := "multipart/form-data; boundary=X".toList

/-- Read events of an upload of body `hi` whose `Content-Disposition`
filename is `../../tmp/evil`. -/
def evilUpload : List ReadEv :=
  [ReadEv.line (strBytes "--X\r\n"),
   ReadEv.line (strBytes
     "Content-Disposition: form-data; name=\"file\"; filename=\"../../tmp/evil\"\r\n"),
   ReadEv.line (strBytes "\r\n"),
   ReadEv.line (strBytes "hi\r\n"),
   ReadEv.line (strBytes "--X--\r\n")]

/-- **C5 (counterexample).** An upload whose `Content-Disposition` filename
contains traversal segments is accepted unchecked: the partial file is
opened, written and renamed at `../../tmp/evil(.partial)`, which resolves
outside the service root `/a/b` — so no sandbox validation runs before the
file is opened. -/
theorem do_POST_traversal_filename_escapes :
    do_POST ctX evilUpload [7] true =
      ⟨303, [FsEvent.openW "../../tmp/evil.partial".toList,
             FsEvent.write "../../tmp/evil.partial".toList (strBytes "hi"),
             FsEvent.rename "../../tmp/evil.partial".toList "../../tmp/evil".toList]⟩ ∧
      resolvedOutside "/a/b".toList
        (abspath "/a/b".toList "../../tmp/evil.partial".toList) = true ∧
      resolvedOutside "/a/b".toList
        (abspath "/a/b".toList "../../tmp/evil".toList) = true := by
  exact ⟨by decide, by decide, by decide⟩

/-! ### Helper lemmas about the parsing primitives -/

theorem startsWithL_append_left {α : Type} [DecidableEq α] (p : List α) :
    ∀ (l₁ l₂ : List α), startsWithL p l₁ = true → startsWithL p (l₁ ++ l₂) = true := by
  induction p with
  | nil => intro l₁ l₂ _; rfl
  | cons a as ih =>
      intro l₁ l₂ h
      cases l₁ with
      | nil => simp [startsWithL] at h
      | cons b bs =>
          simp only [startsWithL, Bool.and_eq_true, decide_eq_true_eq,
            List.cons_append] at h ⊢
          exact ⟨h.1, ih bs l₂ h.2⟩

theorem dropWhile_eq_self_of_head {α : Type} (p : α → Bool) (a : α) (l : List α)
    (h : p a = false) : (a :: l).dropWhile p = a :: l := by
  simp [List.dropWhile_cons, h]

theorem splitlinesGo_chunk (r : List Char) :
    ∀ (l acc : List Char), (∀ c ∈ l, c ≠ '\r' ∧ c ≠ '\n') →
      splitlinesGo (l ++ '\r' :: '\n' :: r) acc =
        (acc.reverse ++ l) :: splitlinesGo r []
  | [], acc, _ => by simp [splitlinesGo]
  | [c], acc, h => by
      have hc := h c (by simp)
      simp [splitlinesGo, hc.1, hc.2]
  | c :: c2 :: l2, acc, h => by
      have hc := h c (by simp)
      have ih := splitlinesGo_chunk r (c2 :: l2) (c :: acc)
        (fun x hx => h x (by simp [List.mem_cons] at hx ⊢; tauto))
      simp only [List.cons_append] at ih ⊢
      rw [show splitlinesGo (c :: (c2 :: (l2 ++ '\r' :: '\n' :: r))) acc =
          splitlinesGo (c2 :: (l2 ++ '\r' :: '\n' :: r)) (c :: acc) from by
        simp [splitlinesGo, hc.1, hc.2]]
      rw [ih]
      simp

theorem splitOnChar_sep_cons (sep : Char) (r : List Char) :
    splitOnChar sep (sep :: r) = [] :: splitOnChar sep r := by
  simp [splitOnChar]

theorem splitOnChar_append_sepfree (sep : Char) :
    ∀ (l r : List Char) (h : List Char) (t : List (List Char)),
      (∀ c ∈ l, c ≠ sep) → splitOnChar sep r = h :: t →
      splitOnChar sep (l ++ r) = (l ++ h) :: t := by
  intro l
  induction l with
  | nil => intro r h t _ hr; simpa using hr
  | cons c l' ih =>
      intro r h t hc hr
      have hcs := hc c (by simp)
      have ih2 := ih r h t (fun x hx => hc x (by simp [hx])) hr
      have hstep : splitOnChar sep (c :: (l' ++ r)) =
          match splitOnChar sep (l' ++ r) with
          | [] => [[c]]
          | h :: t => (c :: h) :: t := by
        simp [splitOnChar, hcs]
      rw [List.cons_append, hstep, ih2]
      simp

theorem splitOnChar_sepfree (sep : Char) (l : List Char)
    (hc : ∀ c ∈ l, c ≠ sep) : splitOnChar sep l = [l] := by
  have := splitOnChar_append_sepfree sep l [] [] [] hc rfl
  simpa using this

theorem bytesToChars_charsToBytes (l : List Char) :
    bytesToChars (charsToBytes l) = l := by
  induction l with
  | nil => rfl
  | cons c l ih => simpa [bytesToChars, charsToBytes, Char.ofNat_toNat] using ih

/-- Characters allowed in the filenames the extraction lemma quantifies
over: anything except the separator/quote/space characters the header
syntax reserves. -/
def plainNameChar (c : Char) : Bool :=
  !(c == ';' || c == '"' || c == '=' || c == '/' || isPySpace c) || c == '/'

theorem plainNameChar_spec (c : Char) (h : plainNameChar c = true) :
    c ≠ ';' ∧ c ≠ '"' ∧ c ≠ '=' ∧ isPySpace c = false := by
  by_cases hs : c = '/'
  · subst hs; refine ⟨by decide, by decide, by decide, by decide⟩
  · simp [plainNameChar, hs] at h
    refine ⟨?_, ?_, ?_, ?_⟩ <;> simp_all

theorem plainNameChar_not_crlf (c : Char) (h : plainNameChar c = true) :
    c ≠ '\r' ∧ c ≠ '\n' := by
  have hs := (plainNameChar_spec c h).2.2.2
  constructor
  · intro he; subst he; simp [isPySpace] at hs
  · intro he; subst he; simp [isPySpace] at hs

theorem drainFuel_small (tmp : List Char) (key : List Nat) (plain : Bool)
    (fuel : Nat) (evs : List FsEvent) (buf : List Nat) (off : Nat)
    (h : buf.length < CHUNK_SIZE) :
    drainFuel tmp key plain fuel evs buf off = (evs, buf, off) := by
  cases fuel with
  | zero => rfl
  | succ n => simp [drainFuel, Nat.not_le.mpr h]

/-- Reduction of `do_POST` for a run that reaches the body loop and ends in
its `.ok` branch: all the phases spelt out as hypotheses. -/
theorem do_POST_ok_spine (ct : List Char) (rfile : List ReadEv) (key : List Nat)
    (plain : Bool) (boundaryCs : List Char) (line1 : List Nat) (r1 : List ReadEv)
    (hdrs : List Nat) (r2 : List ReadEv) (f : List Char) (evs : List FsEvent)
    (buf : List Nat) (off : Nat)
    (h1 : containsSub "multipart/form-data".toList ct = true)
    (h2 : (splitOnSub "boundary=".toList ct).getLastD [] = boundaryCs)
    (h3 : readline rfile = some (line1, r1))
    (h4 : startsWithL (strBytes "--" ++ charsToBytes boundaryCs) line1 = true)
    (h5 : readHeaders [] r1 = some (hdrs, r2))
    (h6 : extractFilename (splitlines (bytesToChars hdrs)) = some f)
    (h7 : f ≠ [])
    (h8 : bodyLoop (strBytes "--" ++ charsToBytes boundaryCs) key plain
      (f ++ ".partial".toList) r2 [.openW (f ++ ".partial".toList)] [] 0 =
        .ok (evs, buf, off)) :
    do_POST ct rfile key plain =
      ⟨303, finishBody (f ++ ".partial".toList) key plain evs buf off ++
        [.rename (f ++ ".partial".toList) f]⟩ := by
  unfold do_POST
  rw [h1]
  simp only [Bool.true_eq_false, if_false]
  rw [h2, h3]
  simp only
  rw [h4]
  simp only [Bool.true_eq_false, if_false]
  rw [h5]
  simp only
  rw [h6]
  simp only
  rw [if_neg h7, h8]

/-- The `Content-Disposition` header line used by the generic upload
scenarios, up to (and including) the opening quote of the filename value. -/
def cdHead : List Char :=
  "Content-Disposition: form-data; name=\"file\"; filename=\"".toList

theorem dropWhile_eq_self_of_all {α : Type} (p : α → Bool) (l : List α)
    (h : ∀ c ∈ l, p c = false) : l.dropWhile p = l := by
  cases l with
  | nil => rfl
  | cons a as => exact dropWhile_eq_self_of_head p a as (h a (by simp))

theorem stripQuotes_wrap (f : List Char) (hne : f ≠ [])
    (hq : ∀ c ∈ f, c ≠ '"') : stripQuotes ('"' :: (f ++ ['"'])) = f := by
  obtain ⟨a, f', rfl⟩ := List.exists_cons_of_ne_nil hne
  have ha : a ≠ '"' := hq a (by simp)
  have h1 : List.dropWhile (· = '"') ('"' :: (a :: f' ++ ['"'])) =
      a :: (f' ++ ['"']) := by
    rw [List.dropWhile_cons_of_pos (by simp)]
    exact dropWhile_eq_self_of_head _ a (f' ++ ['"']) (by simp [ha])
  have h2 : (a :: (f' ++ ['"'])).reverse = '"' :: (a :: f').reverse := by
    rw [show a :: (f' ++ ['"']) = (a :: f') ++ ['"'] from by simp,
      List.reverse_append]
    rfl
  have h3 : List.dropWhile (· = '"') ('"' :: (a :: f').reverse) =
      (a :: f').reverse := by
    rw [List.dropWhile_cons_of_pos (by simp)]
    exact dropWhile_eq_self_of_all _ _
      (fun c hc => by
        have hc' : c ∈ a :: f' := List.mem_reverse.mp hc
        simpa using hq c hc')
  simp only [stripQuotes, h1, h2, h3, List.reverse_reverse]

theorem extractFilename_cd (f : List Char) (hne : f ≠ [])
    (hok : ∀ c ∈ f, plainNameChar c = true) :
    extractFilename (splitlines (cdHead ++ (f ++ "\"\r\n".toList))) = some f := by
  have hnotq : ∀ c ∈ f, c ≠ '"' := fun c hc => (plainNameChar_spec c (hok c hc)).2.1
  have hnotsemi : ∀ c ∈ f, c ≠ ';' := fun c hc => (plainNameChar_spec c (hok c hc)).1
  have hnoteq : ∀ c ∈ f, c ≠ '=' := fun c hc => (plainNameChar_spec c (hok c hc)).2.2.1
  have hsl : splitlines (cdHead ++ (f ++ "\"\r\n".toList)) = [cdHead ++ (f ++ ['"'])] := by
    have harr : cdHead ++ (f ++ "\"\r\n".toList) =
        (cdHead ++ (f ++ ['"'])) ++ '\r' :: '\n' :: [] := by
      simp [cdHead]
    rw [harr]
    have hcd0 : ∀ c ∈ cdHead, c ≠ '\r' ∧ c ≠ '\n' := by decide
    have hch : ∀ c ∈ cdHead ++ (f ++ ['"']), c ≠ '\r' ∧ c ≠ '\n' := by
      intro c hc
      rcases List.mem_append.mp hc with h | h
      · exact hcd0 c h
      · rcases List.mem_append.mp h with h | h
        · exact plainNameChar_not_crlf c (hok c h)
        · simp at h; subst h; exact ⟨by decide, by decide⟩
    have := splitlinesGo_chunk [] (cdHead ++ (f ++ ['"'])) [] hch
    simpa [splitlines, splitlinesGo] using this
  rw [hsl]
  have hsplit : splitOnChar ';' (cdHead ++ (f ++ ['"'])) =
      ["Content-Disposition: form-data".toList, " name=\"file\"".toList,
       " filename=\"".toList ++ (f ++ ['"'])] := by
    have hdec : cdHead ++ (f ++ ['"']) =
        "Content-Disposition: form-data".toList ++
          (';' :: (" name=\"file\"".toList ++
            (';' :: (" filename=\"".toList ++ (f ++ ['"']))))) := by
      simp [cdHead]
    rw [hdec]
    have hC : splitOnChar ';' (" filename=\"".toList ++ (f ++ ['"'])) =
        [" filename=\"".toList ++ (f ++ ['"'])] := by
      have hfn0 : ∀ c ∈ " filename=\"".toList, c ≠ ';' := by decide
      apply splitOnChar_sepfree
      intro c hc
      rcases List.mem_append.mp hc with h | h
      · exact hfn0 c h
      · rcases List.mem_append.mp h with h | h
        · exact hnotsemi c h
        · simp at h; subst h; decide
    have hB := splitOnChar_append_sepfree ';' " name=\"file\"".toList _ _ _
      (by decide) (by rw [splitOnChar_sep_cons, hC])
    have hA := splitOnChar_append_sepfree ';' "Content-Disposition: form-data".toList _ _ _
      (by decide) (by rw [splitOnChar_sep_cons, hB])
    rw [hA]
    simp
  have hstripD : stripChars (" filename=\"".toList ++ (f ++ ['"'])) =
      "filename=\"".toList ++ (f ++ ['"']) := by
    have hd1 : (" filename=\"".toList ++ (f ++ ['"'])).dropWhile isPySpace =
        "filename=\"".toList ++ (f ++ ['"']) := by
      rw [show " filename=\"".toList ++ (f ++ ['"']) =
        ' ' :: ('f' :: ("ilename=\"".toList ++ (f ++ ['"']))) from by simp]
      rw [List.dropWhile_cons_of_pos (by decide)]
      rw [dropWhile_eq_self_of_head _ _ _ (by decide)]
      simp
    have hd2 : ("filename=\"".toList ++ (f ++ ['"'])).reverse =
        '"' :: (("filename=\"".toList ++ f).reverse) := by
      rw [show "filename=\"".toList ++ (f ++ ['"']) =
        ("filename=\"".toList ++ f) ++ ['"'] from by simp, List.reverse_append]
      rfl
    have hd3 : List.dropWhile isPySpace ('"' :: ("filename=\"".toList ++ f).reverse) =
        '"' :: ("filename=\"".toList ++ f).reverse :=
      dropWhile_eq_self_of_head _ _ _ (by decide)
    simp only [stripChars, hd1, hd2, hd3]
    rw [← hd2, List.reverse_reverse]
  have hD : filenameFromParts [" filename=\"".toList ++ (f ++ ['"'])] = some f := by
    have hstart : startsWithL "filename=".toList
        ("filename=\"".toList ++ (f ++ ['"'])) = true :=
      startsWithL_append_left _ _ _ (by decide)
    have hsplitEq : splitOnChar '=' ("filename=\"".toList ++ (f ++ ['"'])) =
        ["filename".toList, '"' :: (f ++ ['"'])] := by
      have hdec2 : "filename=\"".toList ++ (f ++ ['"']) =
          "filename".toList ++ ('=' :: ('"' :: (f ++ ['"']))) := by simp
      rw [hdec2]
      have htail : splitOnChar '=' ('"' :: (f ++ ['"'])) = ['"' :: (f ++ ['"'])] := by
        apply splitOnChar_sepfree
        intro c hc
        rcases List.mem_cons.mp hc with h | h
        · subst h; decide
        · rcases List.mem_append.mp h with h | h
          · exact hnoteq c h
          · simp at h; subst h; decide
      have := splitOnChar_append_sepfree '=' "filename".toList _ _ _
        (by decide) (by rw [splitOnChar_sep_cons, htail])
      rw [this]
      simp
    simp only [filenameFromParts, hstripD, hstart, if_true, hsplitEq]
    simp only [List.getD, List.getElem?_cons_succ, List.getElem?_cons_zero,
      Option.getD_some]
    exact congrArg some (stripQuotes_wrap f hne hnotq)
  have hlower : startsWithL "content-disposition:".toList
      ((cdHead ++ (f ++ ['"'])).map Char.toLower) = true := by
    rw [List.map_append]
    exact startsWithL_append_left _ _ _ (by decide)
  simp only [extractFilename, List.foldl, hlower, if_true, hsplit]
  simp only [filenameFromParts]
  rw [show startsWithL "filename=".toList
      (stripChars "Content-Disposition: form-data".toList) = false from by decide]
  rw [show startsWithL "filename=".toList
      (stripChars " name=\"file\"".toList) = false from by decide]
  simp only [Bool.false_eq_true, if_false]
  have := hD
  simp only [filenameFromParts] at this
  rw [this]

theorem readHeaders_cd (f : List Char) (rest : List ReadEv) :
    readHeaders []
      (ReadEv.line (charsToBytes (cdHead ++ (f ++ "\"\r\n".toList))) ::
        ReadEv.line (strBytes "\r\n") :: rest) =
      some (charsToBytes (cdHead ++ (f ++ "\"\r\n".toList)), rest) := by
  obtain ⟨t, ht⟩ : ∃ t, charsToBytes (cdHead ++ (f ++ "\"\r\n".toList)) = 67 :: t :=
    ⟨_, rfl⟩
  rw [ht]
  have hcrlf : strBytes "\r\n" = [13, 10] := rfl
  rw [hcrlf]
  simp [readHeaders]

/-- Read events of an upload with boundary `X`, `Content-Disposition`
filename `f` and two-byte body `hi`. -/
def uploadEvents (f : List Char) : List ReadEv :=
  [ReadEv.line (strBytes "--X\r\n"),
   ReadEv.line (charsToBytes (cdHead ++ (f ++ "\"\r\n".toList))),
   ReadEv.line (strBytes "\r\n"),
   ReadEv.line (strBytes "hi\r\n"),
   ReadEv.line (strBytes "--X--\r\n")]

/-- **C5 (amended).** `do_POST` applies no path validation at all to the
upload's target filename: for every filename `f` free of the characters the
header syntax reserves — traversal segments `../` included — the partial
file is opened and written at exactly `f ++ ".partial"` and renamed to `f`,
relative to the working directory.  Together with
`do_POST_traversal_filename_escapes` this shows a traversal filename causes
a write outside the service root. -/
theorem bodyLoop_stop (delim key : List Nat) (plain : Bool) (tmp : List Char)
    (bs : List Nat) (rest : List ReadEv) (evs : List FsEvent) (buf : List Nat)
    (off : Nat) (h : startsWithL delim bs = true) :
    bodyLoop delim key plain tmp (.line bs :: rest) evs buf off =
      .ok (evs, buf, off) := by
  simp [bodyLoop, h]

theorem bodyLoop_feed (delim key : List Nat) (plain : Bool) (tmp : List Char)
    (bs : List Nat) (rest : List ReadEv) (evs : List FsEvent) (buf : List Nat)
    (off : Nat) (h1 : startsWithL delim bs = false) (h2 : bs ≠ []) :
    bodyLoop delim key plain tmp (.line bs :: rest) evs buf off =
      bodyLoop delim key plain tmp rest
        (drainChunks tmp key plain evs (buf ++ bs) off).1
        (drainChunks tmp key plain evs (buf ++ bs) off).2.1
        (drainChunks tmp key plain evs (buf ++ bs) off).2.2 := by
  simp [bodyLoop, h1, h2]

theorem do_POST_opens_filename_directly (key : List Nat) (f : List Char)
    (hne : f ≠ []) (hok : f.all plainNameChar = true) :
    do_POST ctX (uploadEvents f) key true =
      ⟨303, [FsEvent.openW (f ++ ".partial".toList),
             FsEvent.write (f ++ ".partial".toList) (strBytes "hi"),
             FsEvent.rename (f ++ ".partial".toList) f]⟩ := by
  have hok' : ∀ c ∈ f, plainNameChar c = true := by
    simpa [List.all_eq_true] using hok
  have h8 : bodyLoop (strBytes "--" ++ charsToBytes "X".toList) key true
      (f ++ ".partial".toList)
      [ReadEv.line (strBytes "hi\r\n"), ReadEv.line (strBytes "--X--\r\n")]
      [.openW (f ++ ".partial".toList)] [] 0 =
      .ok ([.openW (f ++ ".partial".toList)], strBytes "hi\r\n", 0) := by
    rw [bodyLoop_feed _ _ _ _ _ _ _ _ _ (by decide) (by decide)]
    have hd : drainChunks (f ++ ".partial".toList) key true
        [.openW (f ++ ".partial".toList)] ([] ++ strBytes "hi\r\n") 0 =
        ([.openW (f ++ ".partial".toList)], strBytes "hi\r\n", 0) := by
      rw [List.nil_append, drainChunks]
      exact drainFuel_small _ _ _ _ _ _ _ (by decide)
    rw [hd]
    exact bodyLoop_stop _ _ _ _ _ _ _ _ _ (by decide)
  have hspine := do_POST_ok_spine ctX (uploadEvents f) key true "X".toList
    (strBytes "--X\r\n")
    [ReadEv.line (charsToBytes (cdHead ++ (f ++ "\"\r\n".toList))),
     ReadEv.line (strBytes "\r\n"),
     ReadEv.line (strBytes "hi\r\n"), ReadEv.line (strBytes "--X--\r\n")]
    (charsToBytes (cdHead ++ (f ++ "\"\r\n".toList)))
    [ReadEv.line (strBytes "hi\r\n"), ReadEv.line (strBytes "--X--\r\n")]
    f [.openW (f ++ ".partial".toList)] (strBytes "hi\r\n") 0
    (by decide) (by decide) rfl (by decide) (readHeaders_cd f _)
    (by rw [bytesToChars_charsToBytes]; exact extractFilename_cd f hne hok') hne h8
  rw [hspine]
  have htrim : trimTrailingNewline (strBytes "hi\r\n") = strBytes "hi" := by decide
  have hb : strBytes "hi" ≠ [] := by decide
  simp [finishBody, htrim, hb]

theorem do_POST_opens_filename_directly_witness :
    "../evil".toList ≠ [] ∧ "../evil".toList.all plainNameChar = true ∧
      do_POST ctX (uploadEvents "../evil".toList) [7] true =
        ⟨303, [FsEvent.openW ("../evil".toList ++ ".partial".toList),
               FsEvent.write ("../evil".toList ++ ".partial".toList) (strBytes "hi"),
               FsEvent.rename ("../evil".toList ++ ".partial".toList) "../evil".toList]⟩ :=
  ⟨by decide, by decide,
    do_POST_opens_filename_directly [7] "../evil".toList (by decide) (by decide)⟩

/-- Reduction of `do_POST` up to (but not through) the body loop. -/
theorem do_POST_to_bodyLoop (ct : List Char) (rfile : List ReadEv) (key : List Nat)
    (plain : Bool) (boundaryCs : List Char) (line1 : List Nat) (r1 : List ReadEv)
    (hdrs : List Nat) (r2 : List ReadEv) (f : List Char)
    (h1 : containsSub "multipart/form-data".toList ct = true)
    (h2 : (splitOnSub "boundary=".toList ct).getLastD [] = boundaryCs)
    (h3 : readline rfile = some (line1, r1))
    (h4 : startsWithL (strBytes "--" ++ charsToBytes boundaryCs) line1 = true)
    (h5 : readHeaders [] r1 = some (hdrs, r2))
    (h6 : extractFilename (splitlines (bytesToChars hdrs)) = some f)
    (h7 : f ≠ []) :
    do_POST ct rfile key plain =
      match bodyLoop (strBytes "--" ++ charsToBytes boundaryCs) key plain
          (f ++ ".partial".toList) r2 [.openW (f ++ ".partial".toList)] [] 0 with
      | .error evs => ⟨500, evs⟩
      | .ok (evs, buf, off) =>
          ⟨303, finishBody (f ++ ".partial".toList) key plain evs buf off ++
            [.rename (f ++ ".partial".toList) f]⟩ := by
  unfold do_POST
  rw [h1]
  simp only [Bool.true_eq_false, if_false]
  rw [h2, h3]
  simp only
  rw [h4]
  simp only [Bool.true_eq_false, if_false]
  rw [h5]
  simp only
  rw [h6]
  simp only
  rw [if_neg h7]

theorem bodyLoop_truncates (delim key : List Nat) (plain : Bool) (tmp : List Char) :
    ∀ (ls₁ : List (List Nat)) (bl : List Nat) (ls₂ : List ReadEv)
      (evs : List FsEvent) (buf : List Nat) (off : Nat),
      (∀ l ∈ ls₁, startsWithL delim l = false ∧ l ≠ []) →
      startsWithL delim bl = true →
      bodyLoop delim key plain tmp
          (ls₁.map ReadEv.line ++ ReadEv.line bl :: ls₂) evs buf off =
        bodyLoop delim key plain tmp
          (ls₁.map ReadEv.line ++ [ReadEv.line bl]) evs buf off := by
  intro ls₁
  induction ls₁ with
  | nil =>
      intro bl ls₂ evs buf off _ hbl
      simp only [List.map_nil, List.nil_append]
      rw [bodyLoop_stop _ _ _ _ _ _ _ _ _ hbl, bodyLoop_stop _ _ _ _ _ _ _ _ _ hbl]
  | cons l ls ih =>
      intro bl ls₂ evs buf off h hbl
      have hl := h l (by simp)
      simp only [List.map_cons, List.cons_append]
      rw [bodyLoop_feed _ _ _ _ _ _ _ _ _ hl.1 hl.2,
        bodyLoop_feed _ _ _ _ _ _ _ _ _ hl.1 hl.2]
      exact ih bl ls₂ _ _ _ (fun x hx => h x (by simp [hx])) hbl

/-- **C9.** The ingest loop stops at the first input line beginning with
`--` followed by the boundary token, whether that line is MIME framing or
payload content: a body stream whose payload lines `ls₁` are followed by a
line `bl` starting with the delimiter produces exactly the same response
and filesystem trace as the stream truncated at `bl` — everything after it
(here `ls₂`) is ignored, so only the bytes preceding that line (after
framing-terminator trimming) are stored. -/
theorem do_POST_stops_at_boundary_line (key : List Nat) (plain : Bool)
    (ls₁ : List (List Nat)) (bl : List Nat) (ls₂ : List ReadEv)
    (h : ∀ l ∈ ls₁, startsWithL (strBytes "--X") l = false ∧ l ≠ [])
    (hbl : startsWithL (strBytes "--X") bl = true) :
    do_POST ctX
      (ReadEv.line (strBytes "--X\r\n") ::
        ReadEv.line (charsToBytes (cdHead ++ ("f.bin".toList ++ "\"\r\n".toList))) ::
        ReadEv.line (strBytes "\r\n") ::
        (ls₁.map ReadEv.line ++ ReadEv.line bl :: ls₂)) key plain =
    do_POST ctX
      (ReadEv.line (strBytes "--X\r\n") ::
        ReadEv.line (charsToBytes (cdHead ++ ("f.bin".toList ++ "\"\r\n".toList))) ::
        ReadEv.line (strBytes "\r\n") ::
        (ls₁.map ReadEv.line ++ [ReadEv.line bl])) key plain := by
  have hext : extractFilename (splitlines (bytesToChars
      (charsToBytes (cdHead ++ ("f.bin".toList ++ "\"\r\n".toList))))) =
      some "f.bin".toList := by
    rw [bytesToChars_charsToBytes]
    exact extractFilename_cd "f.bin".toList (by decide) (by decide)
  rw [do_POST_to_bodyLoop ctX
    (ReadEv.line (strBytes "--X\r\n") ::
      ReadEv.line (charsToBytes (cdHead ++ ("f.bin".toList ++ "\"\r\n".toList))) ::
      ReadEv.line (strBytes "\r\n") ::
      (ls₁.map ReadEv.line ++ ReadEv.line bl :: ls₂))
    key plain "X".toList (strBytes "--X\r\n")
    (ReadEv.line (charsToBytes (cdHead ++ ("f.bin".toList ++ "\"\r\n".toList))) ::
      ReadEv.line (strBytes "\r\n") ::
      (ls₁.map ReadEv.line ++ ReadEv.line bl :: ls₂))
    (charsToBytes (cdHead ++ ("f.bin".toList ++ "\"\r\n".toList)))
    (ls₁.map ReadEv.line ++ ReadEv.line bl :: ls₂) "f.bin".toList
    (by decide) (by decide) rfl (by decide) (readHeaders_cd "f.bin".toList _)
    hext (by decide)]
  rw [do_POST_to_bodyLoop ctX
    (ReadEv.line (strBytes "--X\r\n") ::
      ReadEv.line (charsToBytes (cdHead ++ ("f.bin".toList ++ "\"\r\n".toList))) ::
      ReadEv.line (strBytes "\r\n") ::
      (ls₁.map ReadEv.line ++ [ReadEv.line bl]))
    key plain "X".toList (strBytes "--X\r\n")
    (ReadEv.line (charsToBytes (cdHead ++ ("f.bin".toList ++ "\"\r\n".toList))) ::
      ReadEv.line (strBytes "\r\n") ::
      (ls₁.map ReadEv.line ++ [ReadEv.line bl]))
    (charsToBytes (cdHead ++ ("f.bin".toList ++ "\"\r\n".toList)))
    (ls₁.map ReadEv.line ++ [ReadEv.line bl]) "f.bin".toList
    (by decide) (by decide) rfl (by decide) (readHeaders_cd "f.bin".toList _)
    hext (by decide)]
  have hdl : strBytes "--" ++ charsToBytes "X".toList = strBytes "--X" := rfl
  rw [hdl, bodyLoop_truncates _ _ _ _ ls₁ bl ls₂ _ _ _ h hbl]

theorem do_POST_stops_at_boundary_line_witness :
    (∀ l ∈ [[65, 66, 13, 10]], startsWithL (strBytes "--X") l = false ∧ l ≠ []) ∧
      startsWithL (strBytes "--X") (strBytes "--X\r\n") = true ∧
      do_POST ctX
        (ReadEv.line (strBytes "--X\r\n") ::
          ReadEv.line (charsToBytes (cdHead ++ ("f.bin".toList ++ "\"\r\n".toList))) ::
          ReadEv.line (strBytes "\r\n") ::
          ([[65, 66, 13, 10]].map ReadEv.line ++
            ReadEv.line (strBytes "--X\r\n") :: [ReadEv.line [67]])) [7] true =
      do_POST ctX
        (ReadEv.line (strBytes "--X\r\n") ::
          ReadEv.line (charsToBytes (cdHead ++ ("f.bin".toList ++ "\"\r\n".toList))) ::
          ReadEv.line (strBytes "\r\n") ::
          ([[65, 66, 13, 10]].map ReadEv.line ++
            [ReadEv.line (strBytes "--X\r\n")])) [7] true :=
  ⟨by decide, by decide,
    do_POST_stops_at_boundary_line [7] true [[65, 66, 13, 10]]
      (strBytes "--X\r\n") [ReadEv.line [67]] (by decide) (by decide)⟩

theorem drainFuel_step (tmp : List Char) (key : List Nat) (plain : Bool)
    (fuel : Nat) (evs : List FsEvent) (buf : List Nat) (off : Nat)
    (hc : CHUNK_SIZE ≤ buf.length) :
    drainFuel tmp key plain (fuel + 1) evs buf off =
      drainFuel tmp key plain fuel
        (evs ++ [.write tmp
          (if plain then buf.take CHUNK_SIZE else xor_mask (buf.take CHUNK_SIZE) key off)])
        (buf.drop CHUNK_SIZE)
        (off + (if plain then buf.take CHUNK_SIZE
          else xor_mask (buf.take CHUNK_SIZE) key off).length) := by
  simp [drainFuel, hc]

theorem drainFuel_events (tmp : List Char) (key : List Nat) (plain : Bool) :
    ∀ (fuel : Nat) (evs : List FsEvent) (buf : List Nat) (off : Nat),
      ∃ ws, (drainFuel tmp key plain fuel evs buf off).1 = evs ++ ws ∧
        ∀ e ∈ ws, ∃ d, e = FsEvent.write tmp d := by
  intro fuel
  induction fuel with
  | zero => intro evs buf off; exact ⟨[], by simp [drainFuel], by simp⟩
  | succ n ih =>
      intro evs buf off
      by_cases hc : CHUNK_SIZE ≤ buf.length
      · rw [drainFuel_step tmp key plain n evs buf off hc]
        obtain ⟨ws, hws, hall⟩ := ih
          (evs ++ [.write tmp
            (if plain then buf.take CHUNK_SIZE else xor_mask (buf.take CHUNK_SIZE) key off)])
          (buf.drop CHUNK_SIZE)
          (off + (if plain then buf.take CHUNK_SIZE
            else xor_mask (buf.take CHUNK_SIZE) key off).length)
        refine ⟨FsEvent.write tmp
          (if plain then buf.take CHUNK_SIZE else xor_mask (buf.take CHUNK_SIZE) key off) ::
            ws, ?_, ?_⟩
        · rw [hws]; simp
        · intro e he
          rcases List.mem_cons.mp he with h | h
          · exact ⟨_, h⟩
          · exact hall e h
      · rw [drainFuel_small tmp key plain (n + 1) evs buf off (Nat.not_le.mp hc)]
        exact ⟨[], by simp, by simp⟩

theorem bodyLoop_error_events (delim key : List Nat) (plain : Bool) (tmp : List Char) :
    ∀ (evts : List ReadEv) (evs : List FsEvent) (buf : List Nat) (off : Nat)
      (evs' : List FsEvent),
      bodyLoop delim key plain tmp evts evs buf off = .error evs' →
      ∃ ws, evs' = evs ++ ws ∧ ∀ e ∈ ws, ∃ d, e = FsEvent.write tmp d := by
  intro evts
  induction evts with
  | nil => intro evs buf off evs' h; simp [bodyLoop] at h
  | cons ev rest ih =>
      intro evs buf off evs' h
      cases ev with
      | err =>
          simp only [bodyLoop] at h
          obtain rfl : evs = evs' := by injection h
          exact ⟨[], by simp, by simp⟩
      | line bs =>
          by_cases h1 : startsWithL delim bs = true
          · rw [bodyLoop_stop _ _ _ _ _ _ _ _ _ h1] at h; cases h
          · by_cases h2 : bs = []
            · subst h2
              simp [bodyLoop, h1] at h
            · rw [bodyLoop_feed _ _ _ _ _ _ _ _ _
                (Bool.not_eq_true _ ▸ h1 : startsWithL delim bs = false) h2] at h
              obtain ⟨ws1, hws1, hall1⟩ :=
                drainFuel_events tmp key plain (buf ++ bs).length evs (buf ++ bs) off
              obtain ⟨ws2, hws2, hall2⟩ := ih _ _ _ _ h
              refine ⟨ws1 ++ ws2, ?_, ?_⟩
              · rw [hws2]
                have : (drainChunks tmp key plain evs (buf ++ bs) off).1 = evs ++ ws1 := hws1
                rw [this, List.append_assoc]
              · intro e he
                rcases List.mem_append.mp he with hm | hm
                · exact hall1 e hm
                · exact hall2 e hm

theorem filesAfter_writes :
    ∀ (ws : List FsEvent) (init : List (List Char)),
      (∀ e ∈ ws, ∃ p d, e = FsEvent.write p d) → filesAfter init ws = init := by
  intro ws
  induction ws with
  | nil => intro init _; rfl
  | cons e es ih =>
      intro init h
      obtain ⟨p, d, rfl⟩ := h e (by simp)
      have : filesAfter init (FsEvent.write p d :: es) = filesAfter init es := rfl
      rw [this]
      exact ih init (fun x hx => h x (by simp [hx]))

/-- Characterization of a 500 answer: either the exception struck before the
partial file was opened (no filesystem event), or the trace is the open of
the partial file followed only by writes to it. -/
theorem do_POST_500_events (ct : List Char) (rfile : List ReadEv) (key : List Nat)
    (plain : Bool) (evs : List FsEvent)
    (h : do_POST ct rfile key plain = ⟨500, evs⟩) :
    evs = [] ∨ ∃ g ws, evs = FsEvent.openW g :: ws ∧
      ∀ e ∈ ws, ∃ d, e = FsEvent.write g d := by
  unfold do_POST at h
  by_cases h1 : containsSub "multipart/form-data".toList ct = false
  · rw [if_pos h1] at h; simp at h
  · rw [if_neg h1] at h
    simp only at h
    cases hr : readline rfile with
    | none => rw [hr] at h; simp at h; exact Or.inl h
    | some pr =>
        obtain ⟨line1, r1⟩ := pr
        rw [hr] at h
        simp only at h
        by_cases h4 : startsWithL (strBytes "--" ++
            charsToBytes ((splitOnSub "boundary=".toList ct).getLastD [])) line1 = false
        · rw [if_pos h4] at h; simp at h
        · rw [if_neg h4] at h
          cases hh : readHeaders [] r1 with
          | none => rw [hh] at h; simp at h; exact Or.inl h
          | some pr2 =>
              obtain ⟨hdrs, r2⟩ := pr2
              rw [hh] at h
              simp only at h
              cases hf : extractFilename (splitlines (bytesToChars hdrs)) with
              | none => rw [hf] at h; simp at h
              | some f =>
                  rw [hf] at h
                  simp only at h
                  by_cases h7 : f = []
                  · rw [if_pos h7] at h; simp at h
                  · rw [if_neg h7] at h
                    cases hb : bodyLoop (strBytes "--" ++
                        charsToBytes ((splitOnSub "boundary=".toList ct).getLastD []))
                        key plain (f ++ ".partial".toList) r2
                        [.openW (f ++ ".partial".toList)] [] 0 with
                    | error evs2 =>
                        rw [hb] at h
                        simp only [PostOut.mk.injEq] at h
                        obtain ⟨ws, hws, hall⟩ :=
                          bodyLoop_error_events _ _ _ _ _ _ _ _ _ hb
                        refine Or.inr ⟨f ++ ".partial".toList, ws, ?_, hall⟩
                        rw [← h.2, hws]
                        simp
                    | ok tr =>
                        obtain ⟨evs2, buf2, off2⟩ := tr
                        rw [hb] at h
                        simp at h

/-- **C7.** Whenever `do_POST` answers 500 (the `except` branch) after the
partial file has been created, the partial file is still present afterwards:
the trace holds no `rename` and no `unlink` at all — the upload component
never unlinks a partial file — so the opened `<filename>.partial` remains on
disk. -/
theorem do_POST_500_leaves_partial (ct : List Char) (rfile : List ReadEv)
    (key : List Nat) (plain : Bool) (g : List Char)
    (h500 : (do_POST ct rfile key plain).status = 500)
    (hopen : FsEvent.openW g ∈ (do_POST ct rfile key plain).events) :
    (∀ a b, FsEvent.rename a b ∉ (do_POST ct rfile key plain).events) ∧
      (∀ p, FsEvent.unlink p ∉ (do_POST ct rfile key plain).events) ∧
      g ∈ filesAfter [] (do_POST ct rfile key plain).events := by
  cases hP : do_POST ct rfile key plain with
  | mk st evs =>
      rw [hP] at h500 hopen
      simp only at h500 hopen
      subst h500
      rcases do_POST_500_events ct rfile key plain evs hP with hnil | ⟨g', ws, rfl, hall⟩
      · subst hnil; simp at hopen
      · have hg : g = g' := by
          rcases List.mem_cons.mp hopen with h | h
          · injection h
          · obtain ⟨d, hd⟩ := hall _ h; cases hd
        subst hg
        refine ⟨?_, ?_, ?_⟩
        · intro a b hmem
          rcases List.mem_cons.mp hmem with h | h
          · cases h
          · obtain ⟨d, hd⟩ := hall _ h; cases hd
        · intro p hmem
          rcases List.mem_cons.mp hmem with h | h
          · cases h
          · obtain ⟨d, hd⟩ := hall _ h; cases hd
        · have h0 : filesAfter [] (FsEvent.openW g :: ws) = filesAfter [g] ws := by
            simp [filesAfter, applyFsEvent]
          rw [h0, filesAfter_writes ws [g] (fun e he => by
            obtain ⟨d, hd⟩ := hall e he; exact ⟨g, d, hd⟩)]
          simp

theorem do_POST_500_leaves_partial_witness :
    (do_POST ctX
      [ReadEv.line (strBytes "--X\r\n"),
       ReadEv.line (charsToBytes (cdHead ++ ("f.bin".toList ++ "\"\r\n".toList))),
       ReadEv.line (strBytes "\r\n"), ReadEv.err] [7] true).status = 500 ∧
    FsEvent.openW "f.bin.partial".toList ∈
      (do_POST ctX
        [ReadEv.line (strBytes "--X\r\n"),
         ReadEv.line (charsToBytes (cdHead ++ ("f.bin".toList ++ "\"\r\n".toList))),
         ReadEv.line (strBytes "\r\n"), ReadEv.err] [7] true).events ∧
    ((∀ a b, FsEvent.rename a b ∉
        (do_POST ctX
          [ReadEv.line (strBytes "--X\r\n"),
           ReadEv.line (charsToBytes (cdHead ++ ("f.bin".toList ++ "\"\r\n".toList))),
           ReadEv.line (strBytes "\r\n"), ReadEv.err] [7] true).events) ∧
      (∀ p, FsEvent.unlink p ∉
        (do_POST ctX
          [ReadEv.line (strBytes "--X\r\n"),
           ReadEv.line (charsToBytes (cdHead ++ ("f.bin".toList ++ "\"\r\n".toList))),
           ReadEv.line (strBytes "\r\n"), ReadEv.err] [7] true).events) ∧
      "f.bin.partial".toList ∈ filesAfter []
        (do_POST ctX
          [ReadEv.line (strBytes "--X\r\n"),
           ReadEv.line (charsToBytes (cdHead ++ ("f.bin".toList ++ "\"\r\n".toList))),
           ReadEv.line (strBytes "\r\n"), ReadEv.err] [7] true).events) :=
  ⟨by decide, by decide,
    do_POST_500_leaves_partial ctX
      [ReadEv.line (strBytes "--X\r\n"),
       ReadEv.line (charsToBytes (cdHead ++ ("f.bin".toList ++ "\"\r\n".toList))),
       ReadEv.line (strBytes "\r\n"), ReadEv.err] [7] true
      "f.bin.partial".toList (by decide) (by decide)⟩

/-! ### C3: the chunk-boundary behaviour of the ingest loop -/

theorem bodyLoop_chunk_minus_one (key : List Nat) (tmp : List Char)
    (delim p bl : List Nat) (evs : List FsEvent)
    (hp : p.length = CHUNK_SIZE - 1)
    (h1 : startsWithL delim (p ++ [13, 10]) = false)
    (h2 : startsWithL delim bl = true) :
    bodyLoop delim key true tmp
      [.line (p ++ [13, 10]), .line bl] evs [] 0 =
      .ok (evs ++ [.write tmp (p ++ [13])], [10], CHUNK_SIZE) := by
  have hN1 : (1 : Nat) ≤ CHUNK_SIZE := by decide
  have hple : p.length ≤ CHUNK_SIZE := by omega
  have hnil : p ++ [13, 10] ≠ [] := by
    intro h
    have := congrArg List.length h
    simp at this
  rw [bodyLoop_feed _ _ _ _ _ _ _ _ _ h1 hnil]
  have hlen : ([] ++ (p ++ [13, 10])).length = CHUNK_SIZE + 1 := by
    simp only [List.nil_append, List.length_append, hp]
    simp
    omega
  have hone : CHUNK_SIZE - p.length = 1 := by omega
  have htake : (p ++ [13, 10]).take CHUNK_SIZE = p ++ [13] := by
    rw [List.take_append_eq_append_take, List.take_of_length_le hple, hone]
    rfl
  have hdrop : (p ++ [13, 10]).drop CHUNK_SIZE = [10] := by
    rw [List.drop_append_eq_append_drop, List.drop_eq_nil_of_le hple, hone]
    rfl
  have hoff : (0 : Nat) + (p ++ [13]).length = CHUNK_SIZE := by
    simp only [List.length_append, hp]
    simp
    omega
  have hdc : drainChunks tmp key true evs ([] ++ (p ++ [13, 10])) 0 =
      (evs ++ [.write tmp (p ++ [13])], [10], CHUNK_SIZE) := by
    rw [drainChunks, hlen, drainFuel_step tmp key true CHUNK_SIZE evs _ 0
      (by simp only [List.nil_append, List.length_append, hp]; simp; omega)]
    simp only [List.nil_append, htake, hdrop, if_true, hoff]
    exact drainFuel_small tmp key true CHUNK_SIZE _ [10] _ (by decide)
  rw [hdc]
  exact bodyLoop_stop _ _ _ _ _ _ _ _ _ h2

/-- **C3 (bug evaluation).** Plain-mode upload of a payload of exactly
`CHUNK_SIZE - 1` bytes (here `4194303` copies of byte `65`, one wire line,
CRLF framing): the buffer reaches `CHUNK_SIZE + 1` bytes, the 4 MiB chunk
slice takes the framing `\r` with it, and the stored file is the payload
plus a trailing `0x0D` byte — not byte-identical to the input.  The trailing
`\n` left in the residual buffer is trimmed and nothing else is written. -/
theorem do_POST_chunk_minus_one_corrupts :
    do_POST ctX
      (ReadEv.line (strBytes "--X\r\n") ::
        ReadEv.line (charsToBytes (cdHead ++ ("f.bin".toList ++ "\"\r\n".toList))) ::
        ReadEv.line (strBytes "\r\n") ::
        [ReadEv.line (List.replicate (CHUNK_SIZE - 1) 65 ++ [13, 10]),
         ReadEv.line (strBytes "--X--\r\n")]) [7] true =
      ⟨303, [FsEvent.openW "f.bin.partial".toList,
             FsEvent.write "f.bin.partial".toList
               (List.replicate (CHUNK_SIZE - 1) 65 ++ [13]),
             FsEvent.rename "f.bin.partial".toList "f.bin".toList]⟩ ∧
      writtenBytes
        [FsEvent.openW "f.bin.partial".toList,
         FsEvent.write "f.bin.partial".toList
           (List.replicate (CHUNK_SIZE - 1) 65 ++ [13]),
         FsEvent.rename "f.bin.partial".toList "f.bin".toList]
        "f.bin.partial".toList = List.replicate (CHUNK_SIZE - 1) 65 ++ [13] ∧
      List.replicate (CHUNK_SIZE - 1) 65 ++ [13] ≠
        List.replicate (CHUNK_SIZE - 1) 65 := by
  refine ⟨?_, ?_, ?_⟩
  · have hext : extractFilename (splitlines (bytesToChars
        (charsToBytes (cdHead ++ ("f.bin".toList ++ "\"\r\n".toList))))) =
        some "f.bin".toList := by
      rw [bytesToChars_charsToBytes]
      exact extractFilename_cd "f.bin".toList (by decide) (by decide)
    have hdl : strBytes "--" ++ charsToBytes "X".toList = strBytes "--X" := rfl
    have h1 : startsWithL (strBytes "--X")
        (List.replicate (CHUNK_SIZE - 1) 65 ++ [13, 10]) = false := by
      rw [show CHUNK_SIZE - 1 = (CHUNK_SIZE - 2) + 1 from by unfold CHUNK_SIZE; omega,
        List.replicate_succ]
      rw [show strBytes "--X" = [45, 45, 88] from rfl]
      simp [startsWithL]
    have hloop := bodyLoop_chunk_minus_one [7]
      ("f.bin".toList ++ ".partial".toList) (strBytes "--X")
      (List.replicate (CHUNK_SIZE - 1) 65) (strBytes "--X--\r\n")
      [.openW ("f.bin".toList ++ ".partial".toList)]
      (by simp) h1 (by decide)
    rw [do_POST_to_bodyLoop ctX
      (ReadEv.line (strBytes "--X\r\n") ::
        ReadEv.line (charsToBytes (cdHead ++ ("f.bin".toList ++ "\"\r\n".toList))) ::
        ReadEv.line (strBytes "\r\n") ::
        [ReadEv.line (List.replicate (CHUNK_SIZE - 1) 65 ++ [13, 10]),
         ReadEv.line (strBytes "--X--\r\n")])
      [7] true "X".toList (strBytes "--X\r\n")
      (ReadEv.line (charsToBytes (cdHead ++ ("f.bin".toList ++ "\"\r\n".toList))) ::
        ReadEv.line (strBytes "\r\n") ::
        [ReadEv.line (List.replicate (CHUNK_SIZE - 1) 65 ++ [13, 10]),
         ReadEv.line (strBytes "--X--\r\n")])
      (charsToBytes (cdHead ++ ("f.bin".toList ++ "\"\r\n".toList)))
      [ReadEv.line (List.replicate (CHUNK_SIZE - 1) 65 ++ [13, 10]),
       ReadEv.line (strBytes "--X--\r\n")] "f.bin".toList
      (by decide) (by decide) rfl (by decide) (readHeaders_cd "f.bin".toList _)
      hext (by decide)]
    rw [hdl, hloop]
    have ht : trimTrailingNewline [10] = [] := by decide
    simp only [finishBody, ht, if_pos rfl]
    rw [show "f.bin".toList ++ ".partial".toList = "f.bin.partial".toList from rfl]
    simp
  · simp [writtenBytes]
  · intro h
    have h2 := congrArg List.length h
    rw [List.length_append, List.length_replicate, List.length_cons,
      List.length_nil] at h2
    omega

/-! ## Companion encryption utility (encrypt.py lines 21-52, decrypt.py lines 22-65)

`encrypt_file`/`decrypt_file` are call sequences over library primitives
(PBKDF2-HMAC-SHA1 from hashlib, AES-256-CBC and PKCS#7 padding from
PyCryptodome, HMAC-SHA256).  The cipher/KDF/MAC primitives live outside the
repository; they are modelled as abstract parameters bundled with exactly
the contracts the scripts rely on: determinism (being Lean functions),
output lengths, and CBC decryption inverting encryption on whole blocks.
PKCS#7 padding is implemented concretely.  File I/O is elided: the
functions map the bytes read to the bytes written, and `decrypt_file`'s
`raise ValueError` paths are `Except.error`. -/

def FORMAT_VERSION : Nat := 1
def AES_BLOCK_SIZE : Nat := 16
def AES_KEY_SIZE : Nat := 32
def HMAC_KEY_SIZE : Nat := 32
def PBKDF2_SALT_SIZE : Nat := 16
def HMAC_SIZE : Nat := 32
def PBKDF2_ITERATIONS : Nat := 5000

structure CryptoPrims where
  kdf : List Nat → List Nat → Nat → Nat → List Nat
  kdf_length : ∀ p s it n, (kdf p s it n).length = n
  aesEnc : List Nat → List Nat → List Nat → List Nat
  aesDec : List Nat → List Nat → List Nat → List Nat
  aesEnc_length : ∀ k iv m, (aesEnc k iv m).length = m.length
  aesDec_aesEnc : ∀ k iv m, m.length % AES_BLOCK_SIZE = 0 →
    aesDec k iv (aesEnc k iv m) = m
  hmacSha256 : List Nat → List Nat → List Nat
  hmac_length : ∀ k m, (hmacSha256 k m).length = HMAC_SIZE

/-- `Crypto.Util.Padding.pad` (PKCS#7). -/
def pkcs7pad (d : List Nat) (bs : Nat) : List Nat :=
  d ++ List.replicate (bs - d.length % bs) (bs - d.length % bs)

/-- `Crypto.Util.Padding.unpad` (PKCS#7); `none` models the `ValueError` on
invalid padding. -/
def pkcs7unpad (d : List Nat) (bs : Nat) : Option (List Nat) :=
  match d.getLast? with
  | none => none
  | some n =>
      if 1 ≤ n ∧ n ≤ bs ∧ n ≤ d.length ∧
          d.drop (d.length - n) = List.replicate n n then
        some (d.take (d.length - n))
      else none

/-- `derive_keys` (identical in both scripts): PBKDF2 key material split
into the AES key and the HMAC key. -/
def derive_keys (P : CryptoPrims) (passphrase : List Char) (salt : List Nat) :
    List Nat × List Nat × List Nat :=
  let material := P.kdf (charsToBytes passphrase) salt PBKDF2_ITERATIONS
    (AES_KEY_SIZE + HMAC_KEY_SIZE)
  (material.take AES_KEY_SIZE, material.drop AES_KEY_SIZE, material)

/-- `encrypt_file` (encrypt.py lines 21-52): the blob
`[ver][salt][iv][ciphertext][hmac]` written to the output file, with the
random `salt`/`iv` passed explicitly. -/
def encrypt_file (P : CryptoPrims) (passphrase : List Char)
    (plaintext salt iv : List Nat) : List Nat :=
  let dk := derive_keys P passphrase salt
  let ciphertext := P.aesEnc dk.1 iv (pkcs7pad plaintext AES_BLOCK_SIZE)
  let tag := P.hmacSha256 dk.2.1 (salt ++ iv ++ ciphertext)
  [FORMAT_VERSION] ++ salt ++ iv ++ ciphertext ++ tag

/-- `decrypt_file` (decrypt.py lines 22-65): parse the blob, check the
version and the HMAC, decrypt and unpad. -/
def decrypt_file (P : CryptoPrims) (passphrase : List Char) (blob : List Nat) :
    Except String (List Nat) :=
  if blob.length < 1 + PBKDF2_SALT_SIZE + AES_BLOCK_SIZE + HMAC_SIZE then
    .error "Ciphertext blob too short or corrupt"
  else if blob.headD 0 ≠ FORMAT_VERSION then
    .error "Unsupported ciphertext version"
  else
    let salt := (blob.drop 1).take PBKDF2_SALT_SIZE
    let iv := (blob.drop (1 + PBKDF2_SALT_SIZE)).take AES_BLOCK_SIZE
    let ciphertext := (blob.drop (1 + PBKDF2_SALT_SIZE + AES_BLOCK_SIZE)).take
      (blob.length - (1 + PBKDF2_SALT_SIZE + AES_BLOCK_SIZE) - HMAC_SIZE)
    let tag := blob.drop (blob.length - HMAC_SIZE)
    let dk := derive_keys P passphrase salt
    if tag ≠ P.hmacSha256 dk.2.1 (salt ++ iv ++ ciphertext) then
      .error "Invalid passphrase or data has been tampered with"
    else
      match pkcs7unpad (P.aesDec dk.1 iv ciphertext) AES_BLOCK_SIZE with
      | some pt => .ok pt
      | none => .error "Padding is incorrect."

theorem pkcs7pad_length (d : List Nat) :
    (pkcs7pad d AES_BLOCK_SIZE).length = d.length + (16 - d.length % 16) := by
  simp [pkcs7pad, AES_BLOCK_SIZE]

theorem pkcs7pad_length_mod (d : List Nat) :
    (pkcs7pad d AES_BLOCK_SIZE).length % AES_BLOCK_SIZE = 0 := by
  rw [pkcs7pad_length]
  show (d.length + (16 - d.length % 16)) % 16 = 0
  omega

theorem pkcs7unpad_pkcs7pad (d : List Nat) :
    pkcs7unpad (pkcs7pad d AES_BLOCK_SIZE) AES_BLOCK_SIZE = some d := by
  have hbs : AES_BLOCK_SIZE = 16 := rfl
  set n := 16 - d.length % 16 with hn
  have hn1 : 1 ≤ n := by omega
  have hn16 : n ≤ 16 := by omega
  have hpad : pkcs7pad d AES_BLOCK_SIZE = d ++ List.replicate n n := by
    simp [pkcs7pad, hbs, hn]
  have hlenp : (d ++ List.replicate n n).length = d.length + n := by simp
  have hlast : (d ++ List.replicate n n).getLast? = some n := by
    rw [show List.replicate n n = List.replicate (n - 1) n ++ [n] from by
      rw [← List.replicate_succ']
      congr 1
      omega]
    rw [← List.append_assoc, List.getLast?_concat]
  have hdrop : (d ++ List.replicate n n).drop ((d ++ List.replicate n n).length - n) =
      List.replicate n n := by
    rw [hlenp, show d.length + n - n = d.length from by omega]
    exact List.drop_left d _
  have htake : (d ++ List.replicate n n).take ((d ++ List.replicate n n).length - n) =
      d := by
    rw [hlenp, show d.length + n - n = d.length from by omega]
    exact List.take_left d _
  rw [hpad]
  unfold pkcs7unpad
  rw [hlast]
  simp only
  rw [if_pos ⟨hn1, by rw [hbs]; exact hn16, by rw [hlenp]; omega, hdrop⟩, htake]

/-- **C10.** For every passphrase and plaintext (and any choice of the
random 16-byte salt and 16-byte IV), decrypting the
`[ver][salt][iv][ciphertext][hmac]` container produced by `encrypt_file`
with the same passphrase succeeds — the length and version checks and the
HMAC comparison all pass — and returns exactly the plaintext. -/
theorem decrypt_file_encrypt_file (P : CryptoPrims) (passphrase : List Char)
    (d salt iv : List Nat) (hs : salt.length = PBKDF2_SALT_SIZE)
    (hiv : iv.length = AES_BLOCK_SIZE) :
    decrypt_file P passphrase (encrypt_file P passphrase d salt iv) =
      .ok d := by
  have hs16 : salt.length = 16 := hs
  have hiv16 : iv.length = 16 := hiv
  set dk := derive_keys P passphrase salt with hdk
  set ct := P.aesEnc dk.1 iv (pkcs7pad d AES_BLOCK_SIZE) with hct
  set tag := P.hmacSha256 dk.2.1 (salt ++ iv ++ ct) with htag
  have hctlen : ct.length = (pkcs7pad d AES_BLOCK_SIZE).length :=
    P.aesEnc_length _ _ _
  have htaglen : tag.length = 32 := P.hmac_length _ _
  have hctpos : 16 ≤ ct.length := by
    rw [hctlen, pkcs7pad_length]
    omega
  have hblob : encrypt_file P passphrase d salt iv =
      [1] ++ (salt ++ (iv ++ (ct ++ tag))) := by
    show [FORMAT_VERSION] ++ salt ++ iv ++ ct ++ tag = _
    simp [FORMAT_VERSION]
  have hblen : (encrypt_file P passphrase d salt iv).length =
      65 + ct.length := by
    rw [hblob]
    simp [hs16, hiv16, htaglen]
    omega
  rw [hblob]
  unfold decrypt_file
  rw [if_neg (by
    simp only [List.length_append, List.length_cons, List.length_nil,
      hs16, hiv16, htaglen]
    show ¬ (1 + (16 + (16 + (ct.length + 32))) <
      1 + PBKDF2_SALT_SIZE + AES_BLOCK_SIZE + HMAC_SIZE)
    show ¬ (1 + (16 + (16 + (ct.length + 32))) < 1 + 16 + 16 + 32)
    omega)]
  rw [if_neg (by
    show ¬ (([1] ++ (salt ++ (iv ++ (ct ++ tag)))).headD 0 ≠ FORMAT_VERSION)
    simp [FORMAT_VERSION])]
  have hsalt : (([1] ++ (salt ++ (iv ++ (ct ++ tag)))).drop 1).take
      PBKDF2_SALT_SIZE = salt := by
    rw [show ([1] : List Nat) ++ (salt ++ (iv ++ (ct ++ tag))) =
      1 :: (salt ++ (iv ++ (ct ++ tag))) from rfl]
    rw [List.drop_one, List.tail_cons]
    rw [show (PBKDF2_SALT_SIZE : Nat) = salt.length from hs16.symm]
    exact List.take_left salt _
  have hivs : (([1] ++ (salt ++ (iv ++ (ct ++ tag)))).drop
      (1 + PBKDF2_SALT_SIZE)).take AES_BLOCK_SIZE = iv := by
    rw [show ([1] : List Nat) ++ (salt ++ (iv ++ (ct ++ tag))) =
      ([1] ++ salt) ++ (iv ++ (ct ++ tag)) from by simp]
    rw [show (1 + PBKDF2_SALT_SIZE : Nat) = ([1] ++ salt).length from by
      simp [hs16, PBKDF2_SALT_SIZE]]
    rw [List.drop_left]
    rw [show (AES_BLOCK_SIZE : Nat) = iv.length from hiv16.symm]
    exact List.take_left iv _
  have hcts : (([1] ++ (salt ++ (iv ++ (ct ++ tag)))).drop
      (1 + PBKDF2_SALT_SIZE + AES_BLOCK_SIZE)).take
      (([1] ++ (salt ++ (iv ++ (ct ++ tag)))).length -
        (1 + PBKDF2_SALT_SIZE + AES_BLOCK_SIZE) - HMAC_SIZE) = ct := by
    rw [show ([1] : List Nat) ++ (salt ++ (iv ++ (ct ++ tag))) =
      (([1] ++ salt) ++ iv) ++ (ct ++ tag) from by simp]
    rw [show (1 + PBKDF2_SALT_SIZE + AES_BLOCK_SIZE : Nat) =
      (([1] ++ salt) ++ iv).length from by
        simp [hs16, hiv16, PBKDF2_SALT_SIZE, AES_BLOCK_SIZE]]
    rw [List.drop_left]
    have hL : ((([1] ++ salt) ++ iv) ++ (ct ++ tag)).length -
        (([1] ++ salt) ++ iv).length - HMAC_SIZE = ct.length := by
      simp [hs16, hiv16, htaglen, HMAC_SIZE]
      omega
    rw [hL]
    exact List.take_left ct _
  have htags : ([1] ++ (salt ++ (iv ++ (ct ++ tag)))).drop
      (([1] ++ (salt ++ (iv ++ (ct ++ tag)))).length - HMAC_SIZE) = tag := by
    have hshape : ([1] : List Nat) ++ (salt ++ (iv ++ (ct ++ tag))) =
        ([1] ++ (salt ++ (iv ++ ct))) ++ tag := by simp
    rw [hshape]
    have hlen2 : (([1] ++ (salt ++ (iv ++ ct))) ++ tag).length - HMAC_SIZE =
        ([1] ++ (salt ++ (iv ++ ct))).length := by
      simp only [List.length_append, List.length_cons, List.length_nil, htaglen]
      show _ - 32 = _
      omega
    rw [hlen2]
    exact List.drop_left _ tag
  rw [hsalt, hivs, hcts, htags]
  rw [if_neg (by
    simp only [← hdk, ← htag]
    intro hcon
    exact hcon rfl)]
  rw [hct, P.aesDec_aesEnc _ _ _ (pkcs7pad_length_mod d), pkcs7unpad_pkcs7pad]

/-- Trivial instantiation of the primitive bundle (identity cipher, constant
KDF and MAC), used only to evaluate the round-trip theorem on a concrete
container. -/
def idPrims : CryptoPrims where
  kdf := fun _ _ _ n => List.replicate n 0
  kdf_length := fun _ _ _ n => by simp
  aesEnc := fun _ _ m => m
  aesDec := fun _ _ m => m
  aesEnc_length := fun _ _ _ => rfl
  aesDec_aesEnc := fun _ _ _ _ => rfl
  hmacSha256 := fun _ _ => List.replicate 32 0
  hmac_length := fun _ _ => by simp [HMAC_SIZE]

theorem decrypt_file_encrypt_file_witness :
    (List.replicate 16 5 : List Nat).length = PBKDF2_SALT_SIZE ∧
      (List.replicate 16 7 : List Nat).length = AES_BLOCK_SIZE ∧
      decrypt_file idPrims "pw".toList
        (encrypt_file idPrims "pw".toList [1, 2, 3]
          (List.replicate 16 5) (List.replicate 16 7)) = .ok [1, 2, 3] :=
  ⟨by decide, by decide,
    decrypt_file_encrypt_file idPrims "pw".toList [1, 2, 3]
      (List.replicate 16 5) (List.replicate 16 7) (by decide) (by decide)⟩
